import Mathlib

/-!
Verification development for the sol-pool-watcher repository: a shallow
embedding of the pool decoders, the dedup gate, the hype aggregator ingest,
the token-safety analysis, the retrying account fetch and the watcher's
live-update handler, with theorems checking the specification claims.

Machine integers are modelled as `Nat` with explicit `% 2^w` where the Rust
code truncates or wraps; fallible code returns `Option` or `Except`; the
process-global Raydium config map and the inventory are threaded explicitly
as state.
-/

set_option maxRecDepth 100000

/-- A byte of account data (value `< 256` for real inputs). -/
abbrev Byte := Nat

/-- A Solana public key, modelled as its 32 raw bytes. -/
abbrev Pubkey := List Byte

/-- DEX kinds, from `pool_watcher/types.rs`. -/
inductive DexKind
  | OrcaWhirlpools
  | RaydiumClmm
  | RaydiumCpmm
  deriving DecidableEq, Repr

/-- Pool identity: (program address, account address), from `types.rs`. -/
structure PoolId where
  program : Pubkey
  account : Pubkey
  deriving DecidableEq, Repr

/-- Decoder output, from `pool_watcher/types.rs::PoolInfo`. -/
structure PoolInfo where
  dex : DexKind
  id : PoolId
  base_mint : Option Pubkey
  quote_mint : Option Pubkey
  fee_bps : Option Nat
  tick_spacing : Option Nat
  lp_mint : Option Pubkey
  is_token2022_base : Bool
  is_token2022_quote : Bool
  deriving DecidableEq, Repr

/-- Rust `data.get(start..start+len)`: `some` slice iff fully in bounds. -/
def sliceGet (data : List Byte) (start len : Nat) : Option (List Byte) :=
  if start + len ≤ data.length then some ((data.drop start).take len) else none

/-- Little-endian `u16` from two bytes (Rust `u16::from_le_bytes`). -/
def leU16 : List Byte → Nat
  | [b0, b1] => b0 + 256 * b1
  | _ => 0

/-- Little-endian `u32` from four bytes (Rust `u32::from_le_bytes`). -/
def leU32 : List Byte → Nat
  | [b0, b1, b2, b3] => b0 + 256 * b1 + 65536 * b2 + 16777216 * b3
  | _ => 0

/-- Orca Whirlpools decoder, from `pool_watcher/decoders/orca_whirl.rs`. -/
def orca_try_decode (program account : Pubkey) (data : List Byte) :
    Option PoolInfo :=
  if data.length < 181 then none
  else
    match sliceGet data 69 32, sliceGet data 149 32,
          sliceGet data 9 2, sliceGet data 13 2 with
    | some token_a, some token_b, some ts_bytes, some fr_bytes =>
        some { dex := DexKind.OrcaWhirlpools
               id := { program := program, account := account }
               base_mint := some token_a
               quote_mint := some token_b
               fee_bps := some (leU16 fr_bytes)
               tick_spacing := some (leU16 ts_bytes)
               lp_mint := none
               is_token2022_base := false
               is_token2022_quote := false }
    | _, _, _, _ => none

/-- The process-global `CONFIG_FEES` side table of the Raydium decoder
(`DashMap<Pubkey, u16>`), threaded explicitly: insertion prepends, lookup
takes the most recent binding. -/
abbrev ConfigFees := List (Pubkey × Nat)

/-- `CONFIG_FEES.get(&k).map(|v| *v)`. -/
def cfgLookup (m : ConfigFees) (k : Pubkey) : Option Nat :=
  (m.find? (fun p => p.1 = k)).map (fun p => p.2)

/-- Raydium CLMM/CPMM decoder, from `pool_watcher/decoders/raydium_clmm.rs`;
returns the updated config side table together with the optional pool. -/
def raydium_try_decode (cfg : ConfigFees) (program account : Pubkey)
    (data : List Byte) : ConfigFees × Option PoolInfo :=
  if data.length = 117 then
    match sliceGet data 47 4 with
    | some fee_bytes =>
        let fee := leU32 fee_bytes
        let fee_bps := (fee * 10000 / 1000000) % 65536
        ((account, fee_bps) :: cfg, none)
    | none => (cfg, none)
  else if data.length ≤ 237 then (cfg, none)
  else
    match sliceGet data 9 32, sliceGet data 73 32,
          sliceGet data 105 32, sliceGet data 235 2 with
    | some amm_config, some token_base, some token_quote, some ts_bytes =>
        (cfg, some { dex := DexKind.RaydiumClmm
                     id := { program := program, account := account }
                     base_mint := some token_base
                     quote_mint := some token_quote
                     fee_bps := cfgLookup cfg amm_config
                     tick_spacing := some (leU16 ts_bytes)
                     lp_mint := none
                     is_token2022_base := false
                     is_token2022_quote := false })
    | _, _, _, _ => (cfg, none)

/-! ### Decoder lemmas -/

theorem sliceGet_eq_some (data : List Byte) (s l : Nat) (h : s + l ≤ data.length) :
    sliceGet data s l = some ((data.drop s).take l) := by
  simp [sliceGet, h]

theorem sliceGet_eq_none (data : List Byte) (s l : Nat) (h : data.length < s + l) :
    sliceGet data s l = none := by
  simp [sliceGet]
  omega

theorem orca_decode_some_of_len (program account : Pubkey)
    (data : List Byte) (h : 181 ≤ data.length) :
    orca_try_decode program account data =
      some { dex := DexKind.OrcaWhirlpools
             id := { program := program, account := account }
             base_mint := some ((data.drop 69).take 32)
             quote_mint := some ((data.drop 149).take 32)
             fee_bps := some (leU16 ((data.drop 13).take 2))
             tick_spacing := some (leU16 ((data.drop 9).take 2))
             lp_mint := none
             is_token2022_base := false
             is_token2022_quote := false } := by
  rw [orca_try_decode, if_neg (by omega),
      sliceGet_eq_some data 69 32 (by omega),
      sliceGet_eq_some data 149 32 (by omega),
      sliceGet_eq_some data 9 2 (by omega),
      sliceGet_eq_some data 13 2 (by omega)]

theorem orca_decode_none_of_len (program account : Pubkey)
    (data : List Byte) (h : data.length < 181) :
    orca_try_decode program account data = none := by
  rw [orca_try_decode, if_pos h]

/-- C4: the Orca decoder accepts exactly the inputs of length ≥ 181, reading
tick-spacing at 9, fee-rate at 13, mint A at 69..101 and mint B at 149..181,
and returns `none` on every shorter input. -/
theorem orca_decode_spec (program account : Pubkey) (data : List Byte) :
    (181 ≤ data.length →
      orca_try_decode program account data =
        some { dex := DexKind.OrcaWhirlpools
               id := { program := program, account := account }
               base_mint := some ((data.drop 69).take 32)
               quote_mint := some ((data.drop 149).take 32)
               fee_bps := some (leU16 ((data.drop 13).take 2))
               tick_spacing := some (leU16 ((data.drop 9).take 2))
               lp_mint := none
               is_token2022_base := false
               is_token2022_quote := false }) ∧
    (data.length < 181 → orca_try_decode program account data = none) :=
  ⟨orca_decode_some_of_len program account data,
   orca_decode_none_of_len program account data⟩

/-- A fixed program key for concrete scenarios. -/
def pkProg : Pubkey := List.replicate 32 7

/-- A fixed account key for concrete scenarios. -/
def pkAcct : Pubkey := List.replicate 32 8

/-- The 200-byte Orca scenario buffer: tick_spacing 3 at offset 9, fee_rate 5
at offset 13. -/
def orcaBuf : List Byte :=
  List.replicate 9 0 ++ [3, 0] ++ [0, 0] ++ [5, 0] ++ List.replicate 185 0

theorem orca_decode_spec_witness :
    orca_try_decode pkProg pkAcct orcaBuf =
      some { dex := DexKind.OrcaWhirlpools
             id := { program := pkProg, account := pkAcct }
             base_mint := some ((orcaBuf.drop 69).take 32)
             quote_mint := some ((orcaBuf.drop 149).take 32)
             fee_bps := some (leU16 ((orcaBuf.drop 13).take 2))
             tick_spacing := some (leU16 ((orcaBuf.drop 9).take 2))
             lp_mint := none
             is_token2022_base := false
             is_token2022_quote := false } :=
  (orca_decode_spec pkProg pkAcct orcaBuf).1 (by decide)

/-- Evaluating the scenario fields: fee 5, tick spacing 3, both mints set. -/
example :
    (orca_try_decode pkProg pkAcct orcaBuf).map
        (fun p => (p.fee_bps, p.tick_spacing, p.base_mint.isSome,
                   p.quote_mint.isSome)) =
      some (some 5, some 3, true, true) := by decide

/-- C6: for every program key, account key, byte input and config-table
state, each decoder is a total function into `Option PoolInfo` whose outcome
is fully characterized by the input length: Orca yields `some` exactly on
length ≥ 181; Raydium yields `some` exactly on length ≥ 238, and its side
table is either untouched or extended by one entry for the decoded account.
No third (panic) outcome exists. -/
theorem decoders_total (program account : Pubkey) (data : List Byte)
    (cfg : ConfigFees) :
    ((orca_try_decode program account data).isSome ↔ 181 ≤ data.length) ∧
    ((raydium_try_decode cfg program account data).2.isSome ↔
        238 ≤ data.length) ∧
    ((raydium_try_decode cfg program account data).1 = cfg ∨
      ∃ v, (raydium_try_decode cfg program account data).1 =
        (account, v) :: cfg) := by
  refine ⟨?_, ?_, ?_⟩
  · by_cases h : data.length < 181
    · rw [orca_decode_none_of_len program account data h]
      simp
      omega
    · rw [orca_decode_some_of_len program account data (by omega)]
      simp
      omega
  · rw [raydium_try_decode]
    by_cases h117 : data.length = 117
    · rw [if_pos h117, sliceGet_eq_some data 47 4 (by omega)]
      simp
      omega
    · rw [if_neg h117]
      by_cases h237 : data.length ≤ 237
      · rw [if_pos h237]
        simp
        omega
      · rw [if_neg h237,
            sliceGet_eq_some data 9 32 (by omega),
            sliceGet_eq_some data 73 32 (by omega),
            sliceGet_eq_some data 105 32 (by omega),
            sliceGet_eq_some data 235 2 (by omega)]
        simp
        omega
  · rw [raydium_try_decode]
    by_cases h117 : data.length = 117
    · rw [if_pos h117, sliceGet_eq_some data 47 4 (by omega)]
      exact Or.inr ⟨_, rfl⟩
    · rw [if_neg h117]
      by_cases h237 : data.length ≤ 237
      · rw [if_pos h237]
        exact Or.inl rfl
      · rw [if_neg h237,
            sliceGet_eq_some data 9 32 (by omega),
            sliceGet_eq_some data 73 32 (by omega),
            sliceGet_eq_some data 105 32 (by omega),
            sliceGet_eq_some data 235 2 (by omega)]
        exact Or.inl rfl

/-- C3 (amended): the Raydium decoder on a 117-byte config record stores the
u16 truncation of `(trade_fee · 10 000) / 1 000 000` keyed by the decoded
account and returns no pool; on a pool record of length > 237 it returns the
mints at 73..105 and 105..137, the tick spacing at 235, and the fee looked up
by the 32-byte config reference at offset 9 (absent when that config was
never decoded). -/
theorem raydium_decode_spec (program account : Pubkey) (data : List Byte)
    (cfg : ConfigFees) :
    (data.length = 117 →
      raydium_try_decode cfg program account data =
        ((account,
           (leU32 ((data.drop 47).take 4) * 10000 / 1000000) % 65536) :: cfg,
         none)) ∧
    (237 < data.length →
      raydium_try_decode cfg program account data =
        (cfg, some { dex := DexKind.RaydiumClmm
                     id := { program := program, account := account }
                     base_mint := some ((data.drop 73).take 32)
                     quote_mint := some ((data.drop 105).take 32)
                     fee_bps := cfgLookup cfg ((data.drop 9).take 32)
                     tick_spacing := some (leU16 ((data.drop 235).take 2))
                     lp_mint := none
                     is_token2022_base := false
                     is_token2022_quote := false })) ∧
    (∀ k : Pubkey, (∀ v, (k, v) ∉ cfg) → cfgLookup cfg k = none) := by
  refine ⟨?_, ?_, ?_⟩
  · intro h
    rw [raydium_try_decode, if_pos h, sliceGet_eq_some data 47 4 (by omega)]
  · intro h
    rw [raydium_try_decode, if_neg (by omega), if_neg (by omega),
        sliceGet_eq_some data 9 32 (by omega),
        sliceGet_eq_some data 73 32 (by omega),
        sliceGet_eq_some data 105 32 (by omega),
        sliceGet_eq_some data 235 2 (by omega)]
  · intro k hk
    rw [cfgLookup, List.find?_eq_none.mpr]
    · rfl
    · intro p hp
      simp only [decide_eq_true_eq]
      intro hpk
      exact hk p.2 (by rw [← hpk, Prod.mk.eta]; exact hp)

/-- A config account key for the Raydium scenario. -/
def cfgAcct : Pubkey := List.replicate 32 9

/-- A pool account key for the Raydium scenario. -/
def poolAcct : Pubkey := List.replicate 32 10

/-- 117-byte Raydium config buffer with `trade_fee = 300` at offset 47. -/
def rayCfgBuf300 : List Byte :=
  List.replicate 47 0 ++ [44, 1, 0, 0] ++ List.replicate 66 0

/-- 117-byte Raydium config buffer with `trade_fee = 6 553 600` at offset 47
(little-endian `[0, 0, 100, 0]`), whose basis-points value 65 536 overflows
`u16`. -/
def rayCfgBufBig : List Byte :=
  List.replicate 47 0 ++ [0, 0, 100, 0] ++ List.replicate 66 0

/-- 240-byte Raydium pool buffer referencing `cfgAcct` at offset 9, with
mints at 73 and 105 and `tick_spacing = 9` at offset 235. -/
def rayPoolBuf : List Byte :=
  List.replicate 9 0 ++ cfgAcct ++ List.replicate 32 0 ++
    List.replicate 32 5 ++ List.replicate 32 6 ++ List.replicate 98 0 ++
    [9, 0] ++ List.replicate 3 0

theorem raydium_decode_spec_witness :
    (raydium_try_decode [] pkProg cfgAcct rayCfgBuf300 =
      ((cfgAcct, (leU32 ((rayCfgBuf300.drop 47).take 4) * 10000 / 1000000)
          % 65536) :: [], none)) ∧
    ((raydium_try_decode [(cfgAcct, 3)] pkProg poolAcct rayPoolBuf).2.map
        (fun p => (p.fee_bps, p.tick_spacing)) = some (some 3, some 9)) ∧
    (cfgLookup [] cfgAcct = none) := by
  refine ⟨(raydium_decode_spec pkProg cfgAcct rayCfgBuf300 []).1 (by decide),
          ?_, (raydium_decode_spec pkProg cfgAcct rayCfgBuf300 []).2.2
                cfgAcct (by simp)⟩
  rw [(raydium_decode_spec pkProg poolAcct rayPoolBuf
        [(cfgAcct, 3)]).2.1 (by decide)]
  decide

/-- C3 as frozen is false: the claim says the stored value is
`(trade_fee · 10 000) / 1 000 000`, but for `trade_fee = 6 553 600` that
value is 65 536 while the code's `as u16` cast stores 0. -/
theorem raydium_fee_truncation_counterexample :
    cfgLookup (raydium_try_decode [] pkProg cfgAcct rayCfgBufBig).1 cfgAcct ≠
      some (6553600 * 10000 / 1000000) := by decide

/-! ### Dedup gate (`arb-notify.rs::should_process`) -/

/-- Wrapping `u64` subtraction `a - b` (release-mode Rust semantics), for
operands below `2^64`. -/
def wrapSub64 (a b : Nat) : Nat := (a + 2 ^ 64 - b) % 2 ^ 64

/-- One dedup check for a fixed key, from `arb-notify.rs::should_process`:
the state is the recorded timestamp for that key; returns the new state and
whether the event is accepted. -/
def should_process (st : Option Nat) (now ttl : Nat) : Option Nat × Bool :=
  match st with
  | some ts => if wrapSub64 now ts < ttl then (some ts, false)
               else (some now, true)
  | none => (some now, true)

/-- The accepted timestamps of a call sequence on one key. -/
def dedupAccepted (ttl : Nat) : Option Nat → List Nat → List Nat
  | _, [] => []
  | st, t :: ts =>
    match should_process st t ttl with
    | (st2, b) =>
        if b then t :: dedupAccepted ttl st2 ts else dedupAccepted ttl st2 ts

/-- The accept/reject outcomes of a call sequence on one key. -/
def dedupResults (ttl : Nat) : Option Nat → List Nat → List Bool
  | _, [] => []
  | st, t :: ts =>
    (should_process st t ttl).2 ::
      dedupResults ttl (should_process st t ttl).1 ts

theorem wrapSub64_eq {a b : Nat} (hba : b ≤ a) (ha : a < 2 ^ 64) :
    wrapSub64 a b = a - b := by
  unfold wrapSub64
  have h : a + 2 ^ 64 - b = (a - b) + 2 ^ 64 := by omega
  rw [h, Nat.add_mod_right, Nat.mod_eq_of_lt (by omega)]

theorem dedupAccepted_sep (ttl : Nat) (ts : List Nat) (r : Nat)
    (hr : ∀ x ∈ ts, r ≤ x) (hlt : ∀ x ∈ ts, x < 2 ^ 64)
    (hsort : ts.Pairwise (· ≤ ·)) :
    (∀ a ∈ dedupAccepted ttl (some r) ts, r + ttl ≤ a) ∧
    (dedupAccepted ttl (some r) ts).Pairwise (fun a b => a + ttl ≤ b) := by
  induction ts generalizing r with
  | nil => simp [dedupAccepted]
  | cons t ts ih =>
    have hrt : r ≤ t := hr t (List.mem_cons_self t ts)
    have ht : t < 2 ^ 64 := hlt t (List.mem_cons_self t ts)
    have hw : wrapSub64 t r = t - r := wrapSub64_eq hrt ht
    rw [List.pairwise_cons] at hsort
    by_cases hacc : wrapSub64 t r < ttl
    · have hstep : should_process (some r) t ttl = (some r, false) := by
        rw [should_process, if_pos hacc]
      have hrec := ih r (fun x hx => hr x (List.mem_cons_of_mem t hx))
        (fun x hx => hlt x (List.mem_cons_of_mem t hx)) hsort.2
      simp only [dedupAccepted, hstep, if_neg Bool.false_ne_true]
      exact hrec
    · have hstep : should_process (some r) t ttl = (some t, true) := by
        rw [should_process, if_neg hacc]
      have hrec := ih t hsort.1
        (fun x hx => hlt x (List.mem_cons_of_mem t hx)) hsort.2
      have hsep : r + ttl ≤ t := by rw [hw] at hacc; omega
      simp only [dedupAccepted, hstep, if_pos rfl]
      refine ⟨?_, ?_⟩
      · intro a ha
        rcases List.mem_cons.mp ha with rfl | ha
        · exact hsep
        · have := hrec.1 a ha
          omega
      · exact List.pairwise_cons.mpr
          ⟨fun a ha => by have := hrec.1 a ha; omega, hrec.2⟩

theorem sep_filter_window (ttl : Nat) (l : List Nat)
    (h : l.Pairwise (fun a b => a + ttl ≤ b)) (t : Nat) :
    (l.filter (fun x => decide (t ≤ x) && decide (x < t + ttl))).length ≤ 1 := by
  induction l with
  | nil => simp
  | cons a l ih =>
    rw [List.pairwise_cons] at h
    by_cases hwin : t ≤ a ∧ a < t + ttl
    · have hrest : l.filter (fun x => decide (t ≤ x) && decide (x < t + ttl))
          = [] := by
        rw [List.filter_eq_nil_iff]
        intro b hb
        have := h.1 b hb
        simp only [Bool.and_eq_true, decide_eq_true_eq, not_and]
        omega
      simp [List.filter_cons, hwin.1, hwin.2, hrest]
    · have ha : ¬(decide (t ≤ a) && decide (a < t + ttl)) = true := by
        simp only [Bool.and_eq_true, decide_eq_true_eq]
        omega
      rw [List.filter_cons, if_neg ha]
      exact ih h.2

/-- C5: for a fixed key and TTL, the dedup check accepts exactly when the key
has no recorded timestamp or `now - recorded ≥ ttl`, records `now` on
acceptance and keeps the old stamp on rejection; over any non-decreasing call
sequence at most one acceptance falls in any window `[t, t + ttl)`; and with
TTL 1000 the calls at 0, 500, 2000 give accept, reject, accept. -/
theorem should_process_dedup :
    (∀ now ttl : Nat, should_process none now ttl = (some now, true)) ∧
    (∀ r now ttl : Nat, r ≤ now → now < 2 ^ 64 →
      (((should_process (some r) now ttl).2 = true) ↔ ttl ≤ now - r) ∧
      ((should_process (some r) now ttl).2 = true →
        (should_process (some r) now ttl).1 = some now) ∧
      ((should_process (some r) now ttl).2 = false →
        (should_process (some r) now ttl).1 = some r)) ∧
    (∀ (ttl : Nat) (ts : List Nat), ts.Pairwise (· ≤ ·) →
      (∀ x ∈ ts, x < 2 ^ 64) → ∀ t,
      ((dedupAccepted ttl none ts).filter
          (fun x => decide (t ≤ x) && decide (x < t + ttl))).length ≤ 1) ∧
    dedupResults 1000 none [0, 500, 2000] = [true, false, true] := by
  refine ⟨fun now ttl => rfl, ?_, ?_, by decide⟩
  · intro r now ttl hrn hn
    have hw : wrapSub64 now r = now - r := wrapSub64_eq hrn hn
    rw [should_process]
    by_cases hacc : wrapSub64 now r < ttl
    · rw [if_pos hacc, hw] at *
      refine ⟨by simpa using (by omega : ¬ ttl ≤ now - r), by simp, by simp⟩
    · rw [if_neg hacc, hw] at *
      refine ⟨by simpa using (by omega : ttl ≤ now - r), by simp, by simp⟩
  · intro ttl ts hsort hlt t
    cases ts with
    | nil => simp [dedupAccepted]
    | cons t0 ts =>
      have hstep : should_process none t0 ttl = (some t0, true) := rfl
      rw [List.pairwise_cons] at hsort
      have hsep := dedupAccepted_sep ttl ts t0 hsort.1
        (fun x hx => hlt x (List.mem_cons_of_mem t0 hx)) hsort.2
      have hpw : (dedupAccepted ttl none (t0 :: ts)).Pairwise
          (fun a b => a + ttl ≤ b) := by
        simp only [dedupAccepted, hstep]
        exact List.pairwise_cons.mpr ⟨fun a ha => hsep.1 a ha, hsep.2⟩
      exact sep_filter_window ttl _ hpw t

theorem should_process_dedup_witness :
    ((should_process (some 0) 2000 1000).2 = true ↔ 1000 ≤ 2000 - 0) :=
  ((should_process_dedup.2.1 0 2000 1000 (by decide) (by norm_num)).1)

/-! ### Hype aggregator (`hype_score/src/lib.rs`) -/

/-- Hype configuration; only the integer fields used by `ingest` are needed
here (`bucket_secs`, `window300s`, plus `window60s` for completeness — the
floating-point score weights belong to `snapshot`, which is out of scope of
the ingest claims). -/
structure HypeConfig where
  bucket_secs : Nat
  window60s : Nat
  window300s : Nat
  deriving DecidableEq, Repr

/-- The default hype configuration (10 s buckets, 60 s / 300 s windows). -/
def HypeConfig.default : HypeConfig :=
  { bucket_secs := 10, window60s := 60, window300s := 300 }

/-- One log event, from `hype_score::PoolLogEvent`. -/
structure PoolLogEvent where
  program : Pubkey
  pool : Pubkey
  signature : List Char
  slot : Nat
  logs : List (List Char)
  ts_ms : Nat
  trader : Option Pubkey
  deriving DecidableEq, Repr

/-- One time bucket of counters, from `hype_score::Bucket`; the uniques set
is a duplicate-free list. -/
structure Bucket where
  swaps : Nat
  buys : Nat
  sells : Nat
  uniques : List Pubkey
  lp_adds : Nat
  lp_rems : Nat
  deriving DecidableEq, Repr

/-- `Bucket::default()`. -/
def Bucket.empty : Bucket :=
  { swaps := 0, buys := 0, sells := 0, uniques := [], lp_adds := 0,
    lp_rems := 0 }

/-- Rust `str::contains` on lists of characters. -/
def containsSub (needle : List Char) : List Char → Bool
  | [] => needle.isEmpty
  | c :: t => needle.isPrefixOf (c :: t) || containsSub needle t

/-- The five classification flags of `hype_score::classify`. -/
structure LogClass where
  is_swap : Bool
  is_buy : Bool
  is_sell : Bool
  lp_add : Bool
  lp_rem : Bool
  deriving DecidableEq, Repr

/-- `hype_score::classify`: case-insensitive substring tests over the log
lines. -/
def classify (logs : List (List Char)) : LogClass :=
  logs.foldl
    (fun acc l =>
      let lo := l.map Char.toLower
      { is_swap := acc.is_swap || containsSub "swap".toList lo
        is_buy := acc.is_buy || containsSub "buy ".toList lo
        is_sell := acc.is_sell || containsSub "sell ".toList lo
        lp_add := acc.lp_add || containsSub "increase liquidity".toList lo
                    || containsSub "add liquidity".toList lo
        lp_rem := acc.lp_rem || containsSub "decrease liquidity".toList lo
                    || containsSub "remove liquidity".toList lo })
    { is_swap := false, is_buy := false, is_sell := false, lp_add := false,
      lp_rem := false }

/-- `HashSet::insert` on the uniques list. -/
def insertUnique (s : List Pubkey) (p : Pubkey) : List Pubkey :=
  if p ∈ s then s else p :: s

/-- The bucket timestamp of an event:
`ev.ts_ms / (bucket_secs*1000) * (bucket_secs*1000)`. -/
def bucketTs (bucket_secs ts_ms : Nat) : Nat :=
  ts_ms / (bucket_secs * 1000) * (bucket_secs * 1000)

/-- The front-eviction loop of `HypeAggregator::ingest`: pop front buckets
whose saturating age relative to `bts` exceeds the horizon. -/
def dropOldBuckets (horizon bts : Nat) :
    List (Nat × Bucket) → List (Nat × Bucket)
  | [] => []
  | (ts, b) :: rest =>
      if horizon < bts - ts then dropOldBuckets horizon bts rest
      else (ts, b) :: rest

/-- Update the back (last) bucket of the series. -/
def updateBack (f : Bucket → Bucket) : List (Nat × Bucket) → List (Nat × Bucket)
  | [] => []
  | [(ts, b)] => [(ts, f b)]
  | x :: rest => x :: updateBack f rest

/-- The per-event counter update of `HypeAggregator::ingest`. -/
def bucketApply (ev : PoolLogEvent) (b : Bucket) : Bucket :=
  let c := classify ev.logs
  let b1 := if c.is_swap then { b with swaps := b.swaps + 1 } else b
  let b2 := if c.is_buy then { b1 with buys := b1.buys + 1 } else b1
  let b3 := if c.is_sell then { b2 with sells := b2.sells + 1 } else b2
  let b4 := if c.lp_add then { b3 with lp_adds := b3.lp_adds + 1 } else b3
  let b5 := if c.lp_rem then { b4 with lp_rems := b4.lp_rems + 1 } else b4
  match ev.trader with
  | some t => { b5 with uniques := insertUnique b5.uniques t }
  | none => b5

/-- `HypeAggregator::ingest` on one pool's series: evict old front buckets,
push a fresh back bucket when the event opens a new one, then update the back
bucket. -/
def hypeIngest (cfg : HypeConfig) (series : List (Nat × Bucket))
    (ev : PoolLogEvent) : List (Nat × Bucket) :=
  let bts := bucketTs cfg.bucket_secs ev.ts_ms
  let s1 := dropOldBuckets (cfg.window300s * 1000) bts series
  let s2 := if s1.getLast?.map Prod.fst = some bts then s1
            else s1 ++ [(bts, Bucket.empty)]
  updateBack (bucketApply ev) s2

/-- A sequence of ingest calls into one pool's series. -/
def hypeRun (cfg : HypeConfig) (series : List (Nat × Bucket))
    (evs : List PoolLogEvent) : List (Nat × Bucket) :=
  evs.foldl (hypeIngest cfg) series

/-- The bucket timestamps of a series. -/
def tsList (s : List (Nat × Bucket)) : List Nat := s.map Prod.fst

theorem tsList_updateBack (f : Bucket → Bucket) (s : List (Nat × Bucket)) :
    tsList (updateBack f s) = tsList s := by
  induction s with
  | nil => rfl
  | cons x rest ih =>
    cases rest with
    | nil =>
      cases x
      rfl
    | cons y t =>
      simp only [updateBack, tsList, List.map_cons] at ih ⊢
      exact congrArg _ ih

theorem dropOldBuckets_sublist (h bts : Nat) (s : List (Nat × Bucket)) :
    (dropOldBuckets h bts s).Sublist s := by
  induction s with
  | nil => exact List.Sublist.refl _
  | cons x rest ih =>
    cases x with
    | mk ts b =>
      rw [dropOldBuckets]
      by_cases hc : h < bts - ts
      · rw [if_pos hc]
        exact ih.cons _
      · rw [if_neg hc]

theorem dropOldBuckets_horizon (h bts : Nat) (s : List (Nat × Bucket))
    (hp : (tsList s).Pairwise (· ≤ ·)) :
    ∀ p ∈ dropOldBuckets h bts s, bts - p.1 ≤ h := by
  induction s with
  | nil => simp [dropOldBuckets]
  | cons x rest ih =>
    cases x with
    | mk ts b =>
      simp only [tsList, List.map_cons, List.pairwise_cons] at hp
      rw [dropOldBuckets]
      by_cases hc : h < bts - ts
      · rw [if_pos hc]
        exact ih hp.2
      · rw [if_neg hc]
        intro p hmem
        rcases List.mem_cons.mp hmem with rfl | hmem
        · omega
        · have hts : ts ≤ p.1 :=
            hp.1 p.1 (List.mem_map.mpr ⟨p, hmem, rfl⟩)
          omega

theorem bucketTs_mono (k : Nat) {a b : Nat} (h : a ≤ b) :
    bucketTs k a ≤ bucketTs k b :=
  Nat.mul_le_mul_right _ (Nat.div_le_div_right h)

theorem hypeIngest_invariant (cfg : HypeConfig) (s : List (Nat × Bucket))
    (ev : PoolLogEvent) (B : Nat)
    (hp : (tsList s).Pairwise (· ≤ ·)) (hb : ∀ t ∈ tsList s, t ≤ B)
    (hB : B ≤ bucketTs cfg.bucket_secs ev.ts_ms) :
    (tsList (hypeIngest cfg s ev)).Pairwise (· ≤ ·) ∧
    (∀ t ∈ tsList (hypeIngest cfg s ev),
        t ≤ bucketTs cfg.bucket_secs ev.ts_ms) ∧
    (∀ p ∈ hypeIngest cfg s ev,
        bucketTs cfg.bucket_secs ev.ts_ms - p.1 ≤ cfg.window300s * 1000) := by
  set bts := bucketTs cfg.bucket_secs ev.ts_ms with hbts
  set s1 := dropOldBuckets (cfg.window300s * 1000) bts s with hs1
  have hsub : (tsList s1).Sublist (tsList s) :=
    (dropOldBuckets_sublist _ _ _).map _
  have hp1 : (tsList s1).Pairwise (· ≤ ·) := hp.sublist hsub
  have hb1 : ∀ t ∈ tsList s1, t ≤ bts :=
    fun t ht => le_trans (hb t (hsub.mem ht)) hB
  have hh1 : ∀ p ∈ s1, bts - p.1 ≤ cfg.window300s * 1000 :=
    dropOldBuckets_horizon _ _ _ hp
  set s2 := if s1.getLast?.map Prod.fst = some bts then s1
            else s1 ++ [(bts, Bucket.empty)] with hs2
  have hp2 : (tsList s2).Pairwise (· ≤ ·) := by
    rw [hs2]
    by_cases hc : s1.getLast?.map Prod.fst = some bts
    · rw [if_pos hc]
      exact hp1
    · rw [if_neg hc]
      rw [tsList, List.map_append]
      refine List.pairwise_append.mpr ⟨hp1, List.pairwise_singleton _ _, ?_⟩
      intro a ha b hb2
      simp only [List.map_cons, List.map_nil, List.mem_singleton] at hb2
      subst hb2
      exact hb1 a ha
  have hb2 : ∀ t ∈ tsList s2, t ≤ bts := by
    rw [hs2]
    by_cases hc : s1.getLast?.map Prod.fst = some bts
    · rw [if_pos hc]
      exact hb1
    · rw [if_neg hc]
      intro t ht
      rw [tsList, List.map_append] at ht
      rcases List.mem_append.mp ht with ht | ht
      · exact hb1 t ht
      · simp only [List.map_cons, List.map_nil, List.mem_singleton] at ht
        omega
  have hh2 : ∀ p ∈ s2, bts - p.1 ≤ cfg.window300s * 1000 := by
    rw [hs2]
    by_cases hc : s1.getLast?.map Prod.fst = some bts
    · rw [if_pos hc]
      exact hh1
    · rw [if_neg hc]
      intro p hmem
      rcases List.mem_append.mp hmem with hmem | hmem
      · exact hh1 p hmem
      · rcases List.mem_singleton.mp hmem with rfl
        simp
  have hfinal : tsList (hypeIngest cfg s ev) = tsList s2 := by
    rw [hypeIngest]
    exact tsList_updateBack _ _
  refine ⟨by rw [hfinal]; exact hp2, by rw [hfinal]; exact hb2, ?_⟩
  intro p hmem
  have : p.1 ∈ tsList s2 := by
    rw [← hfinal]
    exact List.mem_map.mpr ⟨p, hmem, rfl⟩
  rcases List.mem_map.mp this with ⟨q, hq, hq1⟩
  have := hh2 q hq
  rw [hq1] at this
  exact this

theorem hypeRun_horizon (cfg : HypeConfig) (evs : List PoolLogEvent)
    (e : PoolLogEvent) (s : List (Nat × Bucket))
    (hp : (tsList s).Pairwise (· ≤ ·))
    (hmono : ((evs ++ [e]).map PoolLogEvent.ts_ms).Pairwise (· ≤ ·))
    (hs : ∀ t ∈ tsList s, ∀ ev ∈ evs ++ [e],
        t ≤ bucketTs cfg.bucket_secs ev.ts_ms) :
    ∀ p ∈ hypeRun cfg s (evs ++ [e]),
      bucketTs cfg.bucket_secs e.ts_ms - p.1 ≤ cfg.window300s * 1000 := by
  induction evs generalizing s with
  | nil =>
    have hb : ∀ t ∈ tsList s, t ≤ bucketTs cfg.bucket_secs e.ts_ms :=
      fun t ht => hs t ht e (by simp)
    exact (hypeIngest_invariant cfg s e _ hp hb le_rfl).2.2
  | cons ev evs ih =>
    rw [List.cons_append, List.map_cons, List.pairwise_cons] at hmono
    have hb : ∀ t ∈ tsList s, t ≤ bucketTs cfg.bucket_secs ev.ts_ms :=
      fun t ht => hs t ht ev (by simp)
    have hinv := hypeIngest_invariant cfg s ev _ hp hb le_rfl
    have hstep : hypeRun cfg s ((ev :: evs) ++ [e]) =
        hypeRun cfg (hypeIngest cfg s ev) (evs ++ [e]) := rfl
    rw [hstep]
    refine ih (hypeIngest cfg s ev) hinv.1 hmono.2 ?_
    intro t ht ev2 hev2
    refine le_trans (hinv.2.1 t ht) (bucketTs_mono _ ?_)
    exact hmono.1 ev2.ts_ms (List.mem_map.mpr ⟨ev2, hev2, rfl⟩)

/-- C7: over any sequence of ingest calls into one pool with non-decreasing
event timestamps, after each ingest every bucket remaining in the series is
within `window300s · 1000` ms of the bucket timestamp of the event just
ingested — strictly older buckets are absent. -/
theorem hype_ingest_horizon (cfg : HypeConfig) (evs : List PoolLogEvent)
    (e : PoolLogEvent)
    (hmono : ((evs ++ [e]).map PoolLogEvent.ts_ms).Pairwise (· ≤ ·)) :
    ∀ p ∈ hypeRun cfg [] (evs ++ [e]),
      bucketTs cfg.bucket_secs e.ts_ms - p.1 ≤ cfg.window300s * 1000 :=
  hypeRun_horizon cfg evs e [] (by simp [tsList]) hmono
    (by simp [tsList])

/-- A concrete swap log event at t = 0 ms. -/
def evSwap0 : PoolLogEvent :=
  { program := pkProg, pool := pkAcct, signature := [], slot := 0,
    logs := ["Swap executed".toList], ts_ms := 0, trader := none }

/-- A concrete empty log event at t = 400 000 ms. -/
def evLate : PoolLogEvent :=
  { program := pkProg, pool := pkAcct, signature := [], slot := 1,
    logs := [], ts_ms := 400000, trader := none }

theorem hype_ingest_horizon_witness :
    bucketTs HypeConfig.default.bucket_secs evLate.ts_ms - 400000 ≤
      HypeConfig.default.window300s * 1000 :=
  hype_ingest_horizon HypeConfig.default [evSwap0] evLate (by decide)
    (400000, Bucket.empty) (by decide)

/-- The t = 0 bucket is evicted by the t = 400 000 ms ingest. -/
example :
    hypeRun HypeConfig.default [] [evSwap0, evLate] =
      [(400000, Bucket.empty)] := by decide

/-! ### Retrying account fetch (`pool_watcher/token.rs::get_account_retry`) -/

/-- Outcome of the retry loop; `fellThrough` models the `unreachable!()`
branch after the loop. -/
inductive RetryResult (E A : Type)
  | ok (a : A)
  | err (e : E)
  | fellThrough

/-- The `for attempt in 0..MAX_RETRIES` loop of `get_account_retry`, over the
list of remaining attempt indices; `f` gives each attempt's RPC outcome, and
the returned list collects the sleep delays performed between attempts. -/
def retryLoop {E A : Type} (f : Nat → Except E A) (maxRetries : Nat) :
    List Nat → Nat → RetryResult E A × List Nat
  | [], _ => (RetryResult.fellThrough, [])
  | attempt :: rest, delay =>
    match f attempt with
    | Except.ok a => (RetryResult.ok a, [])
    | Except.error e =>
      if attempt + 1 < maxRetries then
        let r := retryLoop f maxRetries rest (delay * 2)
        (r.1, delay :: r.2)
      else (RetryResult.err e, [])

/-- `TokenSafetyProvider::get_account_retry`: 5 attempts, initial delay
200 ms, doubling. -/
def get_account_retry {E A : Type} (f : Nat → Except E A) :
    RetryResult E A × List Nat :=
  retryLoop f 5 (List.range 5) 200

/-- C8: the fetch makes at most 5 attempts with sleeps 200, 400, 800, 1600 ms
between consecutive attempts, returns the first success, returns the final
error when all 5 attempts fail, and never reaches the post-loop
`unreachable!()` branch. -/
theorem get_account_retry_spec {E A : Type} (f : Nat → Except E A) :
    (get_account_retry f).1 ≠ RetryResult.fellThrough ∧
    (∀ i a, i < 5 → f i = Except.ok a →
      (∀ j, j < i → ∃ e, f j = Except.error e) →
      get_account_retry f =
        (RetryResult.ok a, (List.range i).map (fun k => 200 * 2 ^ k))) ∧
    ((∀ i, i < 5 → ∃ e, f i = Except.error e) →
      ∃ e, f 4 = Except.error e ∧
        get_account_retry f = (RetryResult.err e, [200, 400, 800, 1600])) := by
  have hstart : get_account_retry f = retryLoop f 5 [0, 1, 2, 3, 4] 200 := rfl
  refine ⟨?_, ?_, ?_⟩
  · rw [hstart]
    cases h0 : f 0 with
    | ok a => simp [retryLoop, h0]
    | error e0 =>
      cases h1 : f 1 with
      | ok a => simp [retryLoop, h0, h1]
      | error e1 =>
        cases h2 : f 2 with
        | ok a => simp [retryLoop, h0, h1, h2]
        | error e2 =>
          cases h3 : f 3 with
          | ok a => simp [retryLoop, h0, h1, h2, h3]
          | error e3 =>
            cases h4 : f 4 with
            | ok a => simp [retryLoop, h0, h1, h2, h3, h4]
            | error e4 => simp [retryLoop, h0, h1, h2, h3, h4]
  · intro i a hi hfi hprev
    interval_cases i
    · rw [hstart]
      simp [retryLoop, hfi]
    · obtain ⟨e0, h0⟩ := hprev 0 (by omega)
      rw [hstart]
      simp [retryLoop, h0, hfi, List.range_succ]
    · obtain ⟨e0, h0⟩ := hprev 0 (by omega)
      obtain ⟨e1, h1⟩ := hprev 1 (by omega)
      rw [hstart]
      simp [retryLoop, h0, h1, hfi, List.range_succ]
    · obtain ⟨e0, h0⟩ := hprev 0 (by omega)
      obtain ⟨e1, h1⟩ := hprev 1 (by omega)
      obtain ⟨e2, h2⟩ := hprev 2 (by omega)
      rw [hstart]
      simp [retryLoop, h0, h1, h2, hfi, List.range_succ]
    · obtain ⟨e0, h0⟩ := hprev 0 (by omega)
      obtain ⟨e1, h1⟩ := hprev 1 (by omega)
      obtain ⟨e2, h2⟩ := hprev 2 (by omega)
      obtain ⟨e3, h3⟩ := hprev 3 (by omega)
      rw [hstart]
      simp [retryLoop, h0, h1, h2, h3, hfi, List.range_succ]
  · intro hall
    obtain ⟨e0, h0⟩ := hall 0 (by omega)
    obtain ⟨e1, h1⟩ := hall 1 (by omega)
    obtain ⟨e2, h2⟩ := hall 2 (by omega)
    obtain ⟨e3, h3⟩ := hall 3 (by omega)
    obtain ⟨e4, h4⟩ := hall 4 (by omega)
    refine ⟨e4, h4, ?_⟩
    rw [hstart]
    simp [retryLoop, h0, h1, h2, h3, h4]

theorem get_account_retry_spec_witness :
    get_account_retry
        (fun i => if i = 0 then (Except.error 0 : Except Nat Nat)
                  else Except.ok 42) =
      (RetryResult.ok 42, [200]) := by
  have h := (get_account_retry_spec
      (fun i => if i = 0 then (Except.error 0 : Except Nat Nat)
                else Except.ok 42)).2.1
      1 42 (by omega) (by norm_num)
      (fun j hj => ⟨0, by interval_cases j; norm_num⟩)
  simpa [List.range_succ] using h

/-! ### Token safety analysis (`token_decode/src/lib.rs`) -/

/-- Token program kind, from `common_types`; `Other` carries the owner key
(the Rust code stores its string form). -/
inductive TokenProgramKind
  | TokenV1
  | Token2022
  | Other (owner : Pubkey)
  deriving DecidableEq, Repr

/-- Extension flags of a report, from `common_types::TokenExtensionFlags`. -/
structure TokenExtensionFlags where
  non_transferable : Bool
  default_frozen : Bool
  permanent_delegate : Bool
  transfer_hook : Bool
  memo_required : Bool
  confidential : Bool
  mint_close_authority : Bool
  transfer_fee_bps : Option Nat
  transfer_fee_max : Option Nat
  deriving DecidableEq, Repr

/-- `TokenExtensionFlags::default()`. -/
def TokenExtensionFlags.default : TokenExtensionFlags :=
  { non_transferable := false, default_frozen := false,
    permanent_delegate := false, transfer_hook := false,
    memo_required := false, confidential := false,
    mint_close_authority := false, transfer_fee_bps := none,
    transfer_fee_max := none }

/-- A mint classification result, from `common_types::TokenSafetyReport`. -/
structure TokenSafetyReport where
  mint : Pubkey
  program : TokenProgramKind
  decimals : Nat
  supply : Nat
  mint_authority_none : Bool
  freeze_authority_none : Bool
  flags : TokenExtensionFlags
  decision_safe : Bool
  reasons : List String
  warnings : List String
  deriving DecidableEq, Repr

/-- The policy of `token_decode::policy::Policy`. -/
structure Policy where
  require_freeze_authority_none : Bool
  forbid_non_transferable : Bool
  forbid_default_frozen : Bool
  forbid_permanent_delegate : Bool
  forbid_transfer_hook : Bool
  forbid_confidential : Bool
  forbid_memo_required_if_route_no_memo : Bool
  max_fee_bps : Nat
  max_fee_abs_units : Option Nat
  allow_mint_authority : Bool
  forbid_mint_close_authority : Bool
  deriving DecidableEq, Repr

/-- `Policy::default()` of `token_decode`. -/
def Policy.default : Policy :=
  { require_freeze_authority_none := true, forbid_non_transferable := true,
    forbid_default_frozen := true, forbid_permanent_delegate := true,
    forbid_transfer_hook := true, forbid_confidential := true,
    forbid_memo_required_if_route_no_memo := true, max_fee_bps := 100,
    max_fee_abs_units := none, allow_mint_authority := false,
    forbid_mint_close_authority := false }

/-- The fixed-layout base of a decoded mint (spl-token `Mint`). -/
structure MintBase where
  decimals : Nat
  supply : Nat
  mint_authority : Option Pubkey
  freeze_authority : Option Pubkey
  deriving DecidableEq, Repr

/-- A decoded Token-2022 TLV extension with its payload, as consumed by the
match in `analyze_mint`. -/
inductive TokenExt
  | nonTransferable
  | defaultAccountState (frozen : Bool)
  | permanentDelegate
  | transferHook
  | memoTransfer
  | confidentialTransferMint
  | mintCloseAuthority
  | transferFeeConfig (basis_points maximum_fee : Nat)
  | otherExt (n : Nat)
  deriving DecidableEq, Repr

/-- Decoded account data: a legacy mint, a Token-2022 mint with extensions,
or bytes that the corresponding unpack rejects. -/
inductive AccountData
  | mintV1 (m : MintBase)
  | mint22 (m : MintBase) (exts : List TokenExt)
  | ill
  deriving DecidableEq, Repr

/-- A fetched account: owner program plus decoded data. -/
structure Account where
  owner : Pubkey
  data : AccountData
  deriving DecidableEq, Repr

/-- The legacy token program id (`spl_token::id()`), as an opaque key. -/
def spl_token_id : Pubkey := List.replicate 32 1

/-- The Token-2022 program id (`spl_token_2022::id()`), as an opaque key. -/
def spl_token_2022_id : Pubkey := List.replicate 32 2

/-- One arm of the extension loop in `analyze_mint`. -/
def applyExt (policy : Policy) (route_supports_memo : Bool)
    (r : TokenSafetyReport) (ext : TokenExt) : TokenSafetyReport :=
  match ext with
  | TokenExt.nonTransferable =>
    let r := { r with flags := { r.flags with non_transferable := true } }
    if policy.forbid_non_transferable then
      { r with decision_safe := false,
               reasons := r.reasons ++ ["non_transferable"] }
    else r
  | TokenExt.defaultAccountState frozen =>
    if frozen then
      let r := { r with flags := { r.flags with default_frozen := true } }
      if policy.forbid_default_frozen then
        { r with decision_safe := false,
                 reasons := r.reasons ++ ["default_frozen"] }
      else r
    else r
  | TokenExt.permanentDelegate =>
    let r := { r with flags := { r.flags with permanent_delegate := true } }
    if policy.forbid_permanent_delegate then
      { r with decision_safe := false,
               reasons := r.reasons ++ ["permanent_delegate"] }
    else r
  | TokenExt.transferHook =>
    let r := { r with flags := { r.flags with transfer_hook := true } }
    if policy.forbid_transfer_hook then
      { r with decision_safe := false,
               reasons := r.reasons ++ ["transfer_hook"] }
    else r
  | TokenExt.memoTransfer =>
    let r := { r with flags := { r.flags with memo_required := true } }
    if policy.forbid_memo_required_if_route_no_memo && !route_supports_memo then
      { r with decision_safe := false,
               reasons := r.reasons ++ ["memo_required"] }
    else r
  | TokenExt.confidentialTransferMint =>
    let r := { r with flags := { r.flags with confidential := true } }
    if policy.forbid_confidential then
      { r with decision_safe := false,
               reasons := r.reasons ++ ["confidential"] }
    else r
  | TokenExt.mintCloseAuthority =>
    let r := { r with flags := { r.flags with mint_close_authority := true } }
    if policy.forbid_mint_close_authority then
      { r with decision_safe := false,
               reasons := r.reasons ++ ["mint_close_authority"] }
    else
      { r with warnings := r.warnings ++ ["mint_close_authority"] }
  | TokenExt.transferFeeConfig fee max_fee =>
    let fl := { r.flags with transfer_fee_bps := some fee
                             transfer_fee_max := some max_fee }
    let r := { r with flags := fl }
    if policy.max_fee_bps < fee then
      { r with decision_safe := false,
               reasons := r.reasons ++ ["transfer_fee"] }
    else
      match policy.max_fee_abs_units with
      | some max_abs =>
        if max_abs < max_fee then
          { r with decision_safe := false,
                   reasons := r.reasons ++ ["transfer_fee"] }
        else r
      | none => r
  | TokenExt.otherExt _ => r

/-- The freeze-authority check of `analyze_mint`:
`if policy.require_freeze_authority_none && !report.freeze_authority_none`. -/
def freezeCheck (policy : Policy) (r : TokenSafetyReport) :
    TokenSafetyReport :=
  if policy.require_freeze_authority_none && !r.freeze_authority_none
  then { r with decision_safe := false,
                reasons := r.reasons ++ ["freeze_authority"] }
  else r

/-- The mint-authority check of `analyze_mint`:
`if !policy.allow_mint_authority && !report.mint_authority_none`. -/
def mintAuthCheck (policy : Policy) (r : TokenSafetyReport) :
    TokenSafetyReport :=
  if !policy.allow_mint_authority && !r.mint_authority_none
  then { r with warnings := r.warnings ++ ["mint_authority"] }
  else r

/-- The two sequential authority checks shared by the TokenV1 and Token2022
branches of `analyze_mint`. -/
def applyAuthorityChecks (policy : Policy) (r : TokenSafetyReport) :
    TokenSafetyReport :=
  mintAuthCheck policy (freezeCheck policy r)

/-- `token_decode::analyze_mint`, given the already fetched account (the
retrying RPC fetch is modelled separately). -/
def analyze_mint (acc : Account) (mint : Pubkey) (route_supports_memo : Bool)
    (policy : Policy) : Except String TokenSafetyReport :=
  let report0 : TokenSafetyReport :=
    { mint := mint, program := TokenProgramKind.Other acc.owner,
      decimals := 0, supply := 0, mint_authority_none := true,
      freeze_authority_none := true, flags := TokenExtensionFlags.default,
      decision_safe := true, reasons := [], warnings := [] }
  let res : Except String TokenSafetyReport :=
    if acc.owner = spl_token_id then
      match acc.data with
      | AccountData.mintV1 m =>
        let r := { report0 with
                     program := TokenProgramKind.TokenV1
                     decimals := m.decimals
                     supply := m.supply
                     mint_authority_none := m.mint_authority.isNone
                     freeze_authority_none := m.freeze_authority.isNone }
        Except.ok (applyAuthorityChecks policy r)
      | _ => Except.error "mint v1 unpack"
    else if acc.owner = spl_token_2022_id then
      match acc.data with
      | AccountData.mint22 m exts =>
        let r := { report0 with
                     program := TokenProgramKind.Token2022
                     decimals := m.decimals
                     supply := m.supply
                     mint_authority_none := m.mint_authority.isNone
                     freeze_authority_none := m.freeze_authority.isNone }
        Except.ok (exts.foldl (applyExt policy route_supports_memo)
          (applyAuthorityChecks policy r))
      | _ => Except.error "mint22 unpack"
    else
      Except.ok report0
  match res with
  | Except.ok r =>
    Except.ok (if r.reasons.isEmpty then { r with decision_safe := true }
               else r)
  | Except.error e => Except.error e

theorem applyExt_safe (policy : Policy) (memo : Bool) (r : TokenSafetyReport)
    (ext : TokenExt) (h : r.reasons ≠ [] → r.decision_safe = false) :
    (applyExt policy memo r ext).reasons ≠ [] →
      (applyExt policy memo r ext).decision_safe = false := by
  cases ext <;> simp only [applyExt] <;> (try split) <;> (try split) <;>
    (try split) <;> simp_all

theorem foldlExt_safe (policy : Policy) (memo : Bool)
    (exts : List TokenExt) (r : TokenSafetyReport)
    (h : r.reasons ≠ [] → r.decision_safe = false) :
    (exts.foldl (applyExt policy memo) r).reasons ≠ [] →
      (exts.foldl (applyExt policy memo) r).decision_safe = false := by
  induction exts generalizing r with
  | nil => exact h
  | cons e es ih => exact ih _ (applyExt_safe policy memo r e h)

theorem mintAuthCheck_fixed (policy : Policy) (r : TokenSafetyReport) :
    (mintAuthCheck policy r).reasons = r.reasons ∧
    (mintAuthCheck policy r).decision_safe = r.decision_safe ∧
    (mintAuthCheck policy r).mint_authority_none = r.mint_authority_none := by
  unfold mintAuthCheck
  split <;> exact ⟨rfl, rfl, rfl⟩

theorem freezeCheck_safe (policy : Policy) (r : TokenSafetyReport)
    (h : r.reasons ≠ [] → r.decision_safe = false) :
    (freezeCheck policy r).reasons ≠ [] →
      (freezeCheck policy r).decision_safe = false := by
  unfold freezeCheck
  split <;> simp_all

theorem applyAuthorityChecks_safe (policy : Policy) (r : TokenSafetyReport)
    (h : r.reasons ≠ [] → r.decision_safe = false) :
    (applyAuthorityChecks policy r).reasons ≠ [] →
      (applyAuthorityChecks policy r).decision_safe = false := by
  intro hne
  unfold applyAuthorityChecks at *
  rw [(mintAuthCheck_fixed policy _).2.1]
  rw [(mintAuthCheck_fixed policy _).1] at hne
  exact freezeCheck_safe policy r h hne

theorem decision_fix (r : TokenSafetyReport)
    (hP : r.reasons ≠ [] → r.decision_safe = false) :
    ((if r.reasons.isEmpty then { r with decision_safe := true }
      else r).decision_safe = true ↔
     (if r.reasons.isEmpty then { r with decision_safe := true }
      else r).reasons = []) := by
  by_cases h : r.reasons = []
  · simp [h]
  · rw [if_neg (by simpa using h)]
    simp [hP h, h]

/-- C9: analyzing a legacy mint with a freeze authority present under the
default policy yields an unsafe report whose reasons contain
`freeze_authority`; and for every successfully analyzed mint and policy,
`decision_safe` holds exactly when the reasons list is empty. -/
theorem analyze_mint_decision_spec :
    (∀ (m : MintBase) (mint k : Pubkey) (memo : Bool)
        (rep : TokenSafetyReport),
      m.freeze_authority = some k →
      analyze_mint { owner := spl_token_id, data := AccountData.mintV1 m }
          mint memo Policy.default = Except.ok rep →
      rep.decision_safe = false ∧ "freeze_authority" ∈ rep.reasons) ∧
    (∀ (acc : Account) (mint : Pubkey) (memo : Bool) (policy : Policy)
        (rep : TokenSafetyReport),
      analyze_mint acc mint memo policy = Except.ok rep →
      (rep.decision_safe = true ↔ rep.reasons = [])) := by
  constructor
  · intro m mint k memo rep hfa hok
    obtain ⟨dec, sup, ma, fa⟩ := m
    simp only at hfa
    subst hfa
    cases ma <;>
      simp [analyze_mint, applyAuthorityChecks, mintAuthCheck, freezeCheck,
        Policy.default] at hok <;>
      simp [← hok]
  · intro acc mint memo policy rep hok
    simp only [analyze_mint] at hok
    split at hok
    · rename_i r heq
      injection hok with hok
      subst hok
      refine decision_fix r ?_
      split at heq
      · split at heq
        · injection heq with heq
          subst heq
          exact applyAuthorityChecks_safe _ _ (fun h => absurd rfl h)
        · exact absurd heq (by simp)
      · split at heq
        · split at heq
          · injection heq with heq
            subst heq
            exact foldlExt_safe _ _ _ _
              (applyAuthorityChecks_safe _ _ (fun h => absurd rfl h))
          · exact absurd heq (by simp)
        · injection heq with heq
          subst heq
          exact fun h => absurd rfl h
    · exact absurd hok (by simp)

/-- A legacy mint with a freeze authority present. -/
def mintFrozen : MintBase :=
  { decimals := 6, supply := 1000, mint_authority := none,
    freeze_authority := some pkAcct }

/-- The report `analyze_mint` produces for `mintFrozen` under the default
policy. -/
def repFrozen : TokenSafetyReport :=
  { mint := pkProg, program := TokenProgramKind.TokenV1, decimals := 6,
    supply := 1000, mint_authority_none := true,
    freeze_authority_none := false, flags := TokenExtensionFlags.default,
    decision_safe := false, reasons := ["freeze_authority"], warnings := [] }

theorem analyze_mint_decision_spec_witness :
    repFrozen.decision_safe = false ∧ "freeze_authority" ∈ repFrozen.reasons :=
  analyze_mint_decision_spec.1 mintFrozen pkProg pkAcct true repFrozen rfl rfl

/-! ### Policy evaluation of the token-safety-inspector crate
(`token-safety-inspector/crates/token_safety/src/policy.rs`); its
`SafetyReport` shape is from the sibling `report.rs`. -/

/-- Which token program owns the mint (`report.rs::ProgramOwner`). -/
inductive ProgramOwner
  | TokenV1
  | Token2022
  | OtherOwner
  deriving DecidableEq, Repr

/-- Flags of the inspector report (`report.rs::Flags`). -/
structure Flags where
  mint_authority_none : Bool
  freeze_authority_none : Bool
  non_transferable : Bool
  default_frozen : Bool
  permanent_delegate : Bool
  transfer_hook : Bool
  memo_required : Bool
  confidential : Bool
  mint_close_authority : Bool
  deriving DecidableEq, Repr

/-- Transfer-fee details (`report.rs::TransferFeeInfo`). -/
structure TransferFeeInfo where
  epoch : Nat
  fee_bps : Nat
  max_fee : Nat
  deriving DecidableEq, Repr

/-- The inspector report (`report.rs::SafetyReport`). -/
structure SafetyReport where
  mint : Pubkey
  program_owner : ProgramOwner
  decimals : Nat
  supply : Nat
  flags : Flags
  transfer_fee : Option TransferFeeInfo
  other_extensions : List String
  deriving DecidableEq, Repr

/-- The inspector policy (`policy.rs::Policy`). -/
structure InspectorPolicy where
  require_freeze_authority_none : Bool
  forbid_non_transferable : Bool
  forbid_default_frozen : Bool
  forbid_permanent_delegate : Bool
  forbid_transfer_hook : Bool
  forbid_confidential : Bool
  max_fee_bps : Nat
  max_fee_absolute : Nat
  allow_mint_authority : Bool
  forbid_memo_required_if_route_has_no_memo : Bool
  forbid_mint_close_authority : Bool
  deriving DecidableEq, Repr

/-- `policy.rs::Policy::default()`. -/
def InspectorPolicy.default : InspectorPolicy :=
  { require_freeze_authority_none := true, forbid_non_transferable := true,
    forbid_default_frozen := true, forbid_permanent_delegate := true,
    forbid_transfer_hook := true, forbid_confidential := true,
    max_fee_bps := 100, max_fee_absolute := 0, allow_mint_authority := false,
    forbid_memo_required_if_route_has_no_memo := true,
    forbid_mint_close_authority := false }

/-- The evaluation outcome (`policy.rs::Decision`). -/
structure Decision where
  safe : Bool
  reasons : List String
  warnings : List String
  deriving DecidableEq, Repr

/-- One `if cond { safe = false; reasons.push(s) }` step of `evaluate`. -/
def stepReason (cond : Prop) [Decidable cond] (s : String) (d : Decision) :
    Decision :=
  if cond then { d with safe := false, reasons := d.reasons ++ [s] } else d

/-- The mint-authority step of `evaluate`. -/
def stepMintAuthority (allow : Bool) (present : Bool) (d : Decision) :
    Decision :=
  if present then
    if allow then { d with warnings := d.warnings ++ ["mint_authority_present"] }
    else { d with safe := false,
                  reasons := d.reasons ++ ["mint_authority_present"] }
  else d

/-- The mint-close-authority step of `evaluate`. -/
def stepMintClose (forbid : Bool) (present : Bool) (d : Decision) : Decision :=
  if present then
    if forbid then { d with safe := false,
                            reasons := d.reasons ++ ["mint_close_authority"] }
    else { d with warnings := d.warnings ++ ["mint_close_authority"] }
  else d

/-- The transfer-fee step of `evaluate`. -/
def stepTransferFee (p : InspectorPolicy) (tf : Option TransferFeeInfo)
    (d : Decision) : Decision :=
  match tf with
  | some fee =>
    stepReason (fee.max_fee > p.max_fee_absolute ∧ p.max_fee_absolute > 0)
      "transfer_fee_max_exceeds_policy"
      (stepReason (fee.fee_bps > p.max_fee_bps) "transfer_fee_bps_exceeds_policy" d)
  | none => d

/-- `policy.rs::Policy::evaluate`: the sequential flag checks applied
innermost-first to the fresh `Decision::new()`. -/
def InspectorPolicy.evaluate (p : InspectorPolicy) (report : SafetyReport)
    (route_supports_memo : Bool) : Decision :=
  stepTransferFee p report.transfer_fee
    (stepMintClose p.forbid_mint_close_authority
      report.flags.mint_close_authority
      (stepReason (report.flags.confidential ∧ p.forbid_confidential)
        "confidential"
        (stepReason (report.flags.memo_required ∧
            p.forbid_memo_required_if_route_has_no_memo ∧
            route_supports_memo = false) "memo_required"
          (stepReason (report.flags.transfer_hook ∧ p.forbid_transfer_hook)
            "transfer_hook"
            (stepReason (report.flags.permanent_delegate ∧
                p.forbid_permanent_delegate) "permanent_delegate"
              (stepReason (report.flags.default_frozen ∧
                  p.forbid_default_frozen) "default_frozen"
                (stepReason (report.flags.non_transferable ∧
                    p.forbid_non_transferable) "non_transferable"
                  (stepMintAuthority p.allow_mint_authority
                    (!report.flags.mint_authority_none)
                    (stepReason
                      (report.flags.freeze_authority_none = false ∧
                        p.require_freeze_authority_none)
                      "freeze_authority_present"
                      { safe := true, reasons := [],
                        warnings := [] })))))))))

/-- Monotonicity between decisions: unsafety, reasons and warnings persist. -/
def DecisionLe (d d2 : Decision) : Prop :=
  (d.safe = false → d2.safe = false) ∧
  (∀ x ∈ d.reasons, x ∈ d2.reasons) ∧
  (∀ x ∈ d.warnings, x ∈ d2.warnings)

theorem DecisionLe.refl (d : Decision) : DecisionLe d d :=
  ⟨id, fun _ h => h, fun _ h => h⟩

theorem DecisionLe.trans {a b c : Decision} (h1 : DecisionLe a b)
    (h2 : DecisionLe b c) : DecisionLe a c :=
  ⟨fun h => h2.1 (h1.1 h), fun x hx => h2.2.1 x (h1.2.1 x hx),
   fun x hx => h2.2.2 x (h1.2.2 x hx)⟩

theorem stepReason_le (cond : Prop) [Decidable cond] (s : String)
    (d : Decision) : DecisionLe d (stepReason cond s d) := by
  unfold stepReason
  split <;> refine ⟨fun h => ?_, fun x hx => ?_, fun x hx => ?_⟩ <;> simp_all

theorem stepMintAuthority_le (allow present : Bool) (d : Decision) :
    DecisionLe d (stepMintAuthority allow present d) := by
  unfold stepMintAuthority
  split <;> (try split) <;>
    refine ⟨fun h => ?_, fun x hx => ?_, fun x hx => ?_⟩ <;> simp_all

theorem stepMintClose_le (forbid present : Bool) (d : Decision) :
    DecisionLe d (stepMintClose forbid present d) := by
  unfold stepMintClose
  split <;> (try split) <;>
    refine ⟨fun h => ?_, fun x hx => ?_, fun x hx => ?_⟩ <;> simp_all

theorem stepTransferFee_le (p : InspectorPolicy)
    (tf : Option TransferFeeInfo) (d : Decision) :
    DecisionLe d (stepTransferFee p tf d) := by
  unfold stepTransferFee
  cases tf with
  | none => exact DecisionLe.refl d
  | some fee => exact (stepReason_le _ _ d).trans (stepReason_le _ _ _)

/-- A legacy mint with a mint authority present and no freeze authority. -/
def mintWithAuthority : MintBase :=
  { decimals := 6, supply := 1000, mint_authority := some pkAcct,
    freeze_authority := none }

/-- The `token_decode` policy with `allow_mint_authority = true`. -/
def polAllow : Policy :=
  { Policy.default with allow_mint_authority := true }

/-- What `analyze_mint` returns for `mintWithAuthority` under `polAllow`. -/
def repAuthAllowed : TokenSafetyReport :=
  { mint := pkProg, program := TokenProgramKind.TokenV1, decimals := 6,
    supply := 1000, mint_authority_none := false,
    freeze_authority_none := true, flags := TokenExtensionFlags.default,
    decision_safe := true, reasons := [], warnings := [] }

/-- The fetched account holding `mintWithAuthority`. -/
def accWithAuthority : Account :=
  { owner := spl_token_id, data := AccountData.mintV1 mintWithAuthority }

/-- C1 as frozen is false: with `allow_mint_authority = true` and a mint
authority present, the pipeline's safety evaluation
(`token_decode::analyze_mint`) appends nothing to warnings, while the claim
requires "mint_authority" to be appended there. -/
theorem mint_authority_claim_counterexample :
    analyze_mint accWithAuthority pkProg true polAllow
      = Except.ok repAuthAllowed ∧
    "mint_authority" ∉ repAuthAllowed.warnings :=
  ⟨rfl, by decide⟩

theorem steps_le (p : InspectorPolicy) (tf : Option TransferFeeInfo)
    (fb cp : Bool) (c3 c4 c5 c6 c7 c8 : Prop)
    [Decidable c3] [Decidable c4] [Decidable c5] [Decidable c6]
    [Decidable c7] [Decidable c8]
    (s3 s4 s5 s6 s7 s8 : String) (d : Decision) :
    DecisionLe d (stepTransferFee p tf (stepMintClose fb cp
      (stepReason c8 s8 (stepReason c7 s7 (stepReason c6 s6 (stepReason c5 s5
        (stepReason c4 s4 (stepReason c3 s3 d)))))))) :=
  ((((((stepReason_le c3 s3 d).trans (stepReason_le c4 s4 _)).trans
    (stepReason_le c5 s5 _)).trans (stepReason_le c6 s6 _)).trans
    (stepReason_le c7 s7 _)).trans (stepReason_le c8 s8 _)).trans
    ((stepMintClose_le fb cp _).trans (stepTransferFee_le p tf _))

theorem strNe : "mint_authority" ≠ "freeze_authority" := by decide

theorem maNe2 : "mint_authority" ≠ "non_transferable" := by decide

theorem maNe3 : "mint_authority" ≠ "default_frozen" := by decide

theorem maNe4 : "mint_authority" ≠ "permanent_delegate" := by decide

theorem maNe5 : "mint_authority" ≠ "transfer_hook" := by decide

theorem maNe6 : "mint_authority" ≠ "memo_required" := by decide

theorem maNe7 : "mint_authority" ≠ "confidential" := by decide

theorem maNe8 : "mint_authority" ≠ "mint_close_authority" := by decide

theorem maNe9 : "mint_authority" ≠ "transfer_fee" := by decide

theorem applyExt_mint_authority (policy : Policy) (memo : Bool)
    (r : TokenSafetyReport) (ext : TokenExt) :
    (applyExt policy memo r ext).mint_authority_none =
      r.mint_authority_none ∧
    ("mint_authority" ∈ (applyExt policy memo r ext).warnings ↔
      "mint_authority" ∈ r.warnings) ∧
    ("mint_authority" ∈ (applyExt policy memo r ext).reasons ↔
      "mint_authority" ∈ r.reasons) := by
  cases ext <;> simp only [applyExt] <;> (try split) <;> (try split) <;>
    (try split) <;>
    simp_all [maNe2, maNe3, maNe4, maNe5, maNe6, maNe7, maNe8, maNe9]

theorem foldlExt_mint_authority (policy : Policy) (memo : Bool)
    (exts : List TokenExt) (r : TokenSafetyReport) :
    (exts.foldl (applyExt policy memo) r).mint_authority_none =
      r.mint_authority_none ∧
    ("mint_authority" ∈ (exts.foldl (applyExt policy memo) r).warnings ↔
      "mint_authority" ∈ r.warnings) ∧
    ("mint_authority" ∈ (exts.foldl (applyExt policy memo) r).reasons ↔
      "mint_authority" ∈ r.reasons) := by
  induction exts generalizing r with
  | nil => exact ⟨rfl, Iff.rfl, Iff.rfl⟩
  | cons e es ih =>
    have h1 := applyExt_mint_authority policy memo r e
    have h2 := ih (applyExt policy memo r e)
    exact ⟨h2.1.trans h1.1, h2.2.1.trans h1.2.1, h2.2.2.trans h1.2.2⟩

theorem freezeCheck_mint_authority (policy : Policy)
    (r : TokenSafetyReport) :
    (freezeCheck policy r).mint_authority_none = r.mint_authority_none ∧
    (freezeCheck policy r).warnings = r.warnings ∧
    ("mint_authority" ∈ (freezeCheck policy r).reasons ↔
      "mint_authority" ∈ r.reasons) := by
  unfold freezeCheck
  split <;> simp [strNe]

theorem mintAuthCheck_mint_authority (policy : Policy)
    (r : TokenSafetyReport) :
    "mint_authority" ∈ (mintAuthCheck policy r).warnings ↔
      ("mint_authority" ∈ r.warnings ∨
        (policy.allow_mint_authority = false ∧
         r.mint_authority_none = false)) := by
  unfold mintAuthCheck
  split <;> rename_i h <;> simp_all

theorem applyAuthorityChecks_mint_authority (policy : Policy)
    (r : TokenSafetyReport) :
    (applyAuthorityChecks policy r).mint_authority_none =
      r.mint_authority_none ∧
    ("mint_authority" ∈ (applyAuthorityChecks policy r).warnings ↔
      ("mint_authority" ∈ r.warnings ∨
        (policy.allow_mint_authority = false ∧
         r.mint_authority_none = false))) ∧
    ("mint_authority" ∈ (applyAuthorityChecks policy r).reasons ↔
      "mint_authority" ∈ r.reasons) := by
  unfold applyAuthorityChecks
  have hF := freezeCheck_mint_authority policy r
  have hM := mintAuthCheck_mint_authority policy (freezeCheck policy r)
  have hfix := mintAuthCheck_fixed policy (freezeCheck policy r)
  refine ⟨hfix.2.2.trans hF.1, ?_, ?_⟩
  · rw [hM, hF.2.1, hF.1]
  · rw [hfix.1]
    exact hF.2.2

/-- C1 (amended): for every analyzed mint — legacy, Token-2022 or
other-owner alike — the pipeline's evaluation (`token_decode::analyze_mint`)
puts "mint_authority" into warnings exactly when `allow_mint_authority` is
false and the mint authority is present, and never puts it into reasons; in
the token-safety-inspector's `Policy::evaluate`, a present mint authority
appends "mint_authority_present" to warnings when `allow_mint_authority` is
true, and otherwise appends it to reasons and clears `safe`. -/
theorem mint_authority_handling :
    (∀ (acc : Account) (mint : Pubkey) (memo : Bool) (policy : Policy)
        (rep : TokenSafetyReport),
      analyze_mint acc mint memo policy = Except.ok rep →
      ("mint_authority" ∈ rep.warnings ↔
        (policy.allow_mint_authority = false ∧
         rep.mint_authority_none = false)) ∧
      "mint_authority" ∉ rep.reasons) ∧
    (∀ (p : InspectorPolicy) (report : SafetyReport) (memo : Bool),
      report.flags.mint_authority_none = false →
      (p.allow_mint_authority = true →
        "mint_authority_present" ∈ (p.evaluate report memo).warnings) ∧
      (p.allow_mint_authority = false →
        "mint_authority_present" ∈ (p.evaluate report memo).reasons ∧
        (p.evaluate report memo).safe = false)) := by
  constructor
  · intro acc mint memo policy rep hok
    simp only [analyze_mint] at hok
    split at hok
    · rename_i r heq
      injection hok with hok
      subst hok
      have hfields :
          (if r.reasons.isEmpty then { r with decision_safe := true }
           else r).warnings = r.warnings ∧
          (if r.reasons.isEmpty then { r with decision_safe := true }
           else r).reasons = r.reasons ∧
          (if r.reasons.isEmpty then { r with decision_safe := true }
           else r).mint_authority_none = r.mint_authority_none := by
        split <;> exact ⟨rfl, rfl, rfl⟩
      rw [hfields.1, hfields.2.1, hfields.2.2]
      split at heq
      · split at heq
        · rename_i m hdata
          injection heq with heq
          subst heq
          have h := applyAuthorityChecks_mint_authority policy
            { mint := mint, program := TokenProgramKind.TokenV1,
              decimals := m.decimals, supply := m.supply,
              mint_authority_none := m.mint_authority.isNone,
              freeze_authority_none := m.freeze_authority.isNone,
              flags := TokenExtensionFlags.default, decision_safe := true,
              reasons := [], warnings := [] }
          refine ⟨?_, ?_⟩
          · rw [h.1]
            exact h.2.1.trans (by simp)
          · intro hmem
            have := h.2.2.mp hmem
            simp at this
        · exact absurd heq (by simp)
      · split at heq
        · split at heq
          · rename_i m exts hdata
            injection heq with heq
            subst heq
            have hA := applyAuthorityChecks_mint_authority policy
              { mint := mint, program := TokenProgramKind.Token2022,
                decimals := m.decimals, supply := m.supply,
                mint_authority_none := m.mint_authority.isNone,
                freeze_authority_none := m.freeze_authority.isNone,
                flags := TokenExtensionFlags.default, decision_safe := true,
                reasons := [], warnings := [] }
            have hF := foldlExt_mint_authority policy memo exts
              (applyAuthorityChecks policy
                { mint := mint, program := TokenProgramKind.Token2022,
                  decimals := m.decimals, supply := m.supply,
                  mint_authority_none := m.mint_authority.isNone,
                  freeze_authority_none := m.freeze_authority.isNone,
                  flags := TokenExtensionFlags.default,
                  decision_safe := true, reasons := [], warnings := [] })
            refine ⟨?_, ?_⟩
            · rw [hF.1, hA.1]
              exact (hF.2.1.trans hA.2.1).trans (by simp)
            · intro hmem
              have := hA.2.2.mp (hF.2.2.mp hmem)
              simp at this
          · exact absurd heq (by simp)
        · injection heq with heq
          subst heq
          exact ⟨by simp, by simp⟩
    · exact absurd hok (by simp)
  · intro p report memo hma
    have he : p.evaluate report memo =
        stepTransferFee p report.transfer_fee
          (stepMintClose p.forbid_mint_close_authority
            report.flags.mint_close_authority
            (stepReason (report.flags.confidential ∧ p.forbid_confidential)
              "confidential"
              (stepReason (report.flags.memo_required ∧
                  p.forbid_memo_required_if_route_has_no_memo ∧
                  memo = false) "memo_required"
                (stepReason (report.flags.transfer_hook ∧
                    p.forbid_transfer_hook) "transfer_hook"
                  (stepReason (report.flags.permanent_delegate ∧
                      p.forbid_permanent_delegate) "permanent_delegate"
                    (stepReason (report.flags.default_frozen ∧
                        p.forbid_default_frozen) "default_frozen"
                      (stepReason (report.flags.non_transferable ∧
                          p.forbid_non_transferable) "non_transferable"
                        (stepMintAuthority p.allow_mint_authority
                          (!report.flags.mint_authority_none)
                          (stepReason
                            (report.flags.freeze_authority_none = false ∧
                              p.require_freeze_authority_none)
                            "freeze_authority_present"
                            { safe := true, reasons := [],
                              warnings := [] }))))))))) := rfl
    have hle := steps_le p report.transfer_fee
      p.forbid_mint_close_authority report.flags.mint_close_authority
      (report.flags.non_transferable ∧ p.forbid_non_transferable)
      (report.flags.default_frozen ∧ p.forbid_default_frozen)
      (report.flags.permanent_delegate ∧ p.forbid_permanent_delegate)
      (report.flags.transfer_hook ∧ p.forbid_transfer_hook)
      (report.flags.memo_required ∧
        p.forbid_memo_required_if_route_has_no_memo ∧ memo = false)
      (report.flags.confidential ∧ p.forbid_confidential)
      "non_transferable" "default_frozen" "permanent_delegate"
      "transfer_hook" "memo_required" "confidential"
      (stepMintAuthority p.allow_mint_authority
        (!report.flags.mint_authority_none)
        (stepReason (report.flags.freeze_authority_none = false ∧
            p.require_freeze_authority_none) "freeze_authority_present"
          { safe := true, reasons := [], warnings := [] }))
    constructor
    · intro hallow
      rw [he]
      refine hle.2.2 _ ?_
      simp [stepMintAuthority, hma, hallow]
    · intro hallow
      rw [he]
      refine ⟨hle.2.1 _ ?_, hle.1 ?_⟩ <;>
        simp [stepMintAuthority, hma, hallow]

/-- A concrete inspector report whose mint authority is present. -/
def repMintAuth : SafetyReport :=
  { mint := pkProg, program_owner := ProgramOwner.TokenV1, decimals := 6,
    supply := 1000,
    flags := { mint_authority_none := false, freeze_authority_none := true,
               non_transferable := false, default_frozen := false,
               permanent_delegate := false, transfer_hook := false,
               memo_required := false, confidential := false,
               mint_close_authority := false },
    transfer_fee := none, other_extensions := [] }

/-- A Token-2022 mint with a mint authority present. -/
def mint22WithAuthority : MintBase :=
  { decimals := 6, supply := 1000, mint_authority := some pkAcct,
    freeze_authority := none }

/-- The fetched Token-2022 account holding `mint22WithAuthority`, carrying a
mint-close-authority extension. -/
def acc22WithAuthority : Account :=
  { owner := spl_token_2022_id,
    data := AccountData.mint22 mint22WithAuthority
      [TokenExt.mintCloseAuthority] }

/-- The report `analyze_mint` yields for `acc22WithAuthority` under the
default policy. -/
def rep22Auth : TokenSafetyReport :=
  { mint := pkProg, program := TokenProgramKind.Token2022, decimals := 6,
    supply := 1000, mint_authority_none := false,
    freeze_authority_none := true,
    flags := { TokenExtensionFlags.default with mint_close_authority := true },
    decision_safe := true, reasons := [],
    warnings := ["mint_authority", "mint_close_authority"] }

theorem mint_authority_handling_witness :
    (("mint_authority" ∈ rep22Auth.warnings ↔
        (Policy.default.allow_mint_authority = false ∧
         rep22Auth.mint_authority_none = false)) ∧
      "mint_authority" ∉ rep22Auth.reasons) ∧
    ("mint_authority_present" ∈
        (InspectorPolicy.default.evaluate repMintAuth true).reasons ∧
      (InspectorPolicy.default.evaluate repMintAuth true).safe = false) :=
  ⟨mint_authority_handling.1 acc22WithAuthority pkProg true Policy.default
      rep22Auth rfl,
   (mint_authority_handling.2 InspectorPolicy.default repMintAuth true
      rfl).2 rfl⟩

/-! ### Enrichment pipeline gating (`arb-notify.rs::handle_pool_event`) -/

/-- The wrapped-SOL mint `So11111111111111111111111111111111111111112`,
as an opaque distinct key. -/
def SOL_MINT : Pubkey := List.replicate 32 3

/-- `arb-notify.rs::sol_pair`: the selected non-SOL mint and whether it is
mint A. -/
def sol_pair (mint_a mint_b : Pubkey) : Option (Pubkey × Bool) :=
  if mint_a = SOL_MINT then some (mint_b, false)
  else if mint_b = SOL_MINT then some (mint_a, true)
  else none

/-- The stream names `handle_pool_event` writes for one event that passed
dedup: `[]` when the event is dropped; `alerts_enriched` (followed by
`errors` exactly when the broadcast fails) when the alert is emitted.
`fetch` models the RPC account fetch inside `analyze_mint`. -/
def handle_pool_event_streams (fetch : Pubkey → Except String Account)
    (policy : Policy) (broadcast_ok : Bool) (mint_a mint_b : Pubkey) :
    List String :=
  match sol_pair mint_a mint_b with
  | none => []
  | some (non_sol_mint, _) =>
    match fetch non_sol_mint with
    | Except.error _ => []
    | Except.ok acc =>
      match analyze_mint acc non_sol_mint true policy with
      | Except.error _ => []
      | Except.ok rep =>
        if !rep.decision_safe then []
        else "alerts_enriched" :: (if broadcast_ok then [] else ["errors"])

/-- Exactly one of the two mints is the wrapped-SOL mint. -/
def exactlyOneSol (a b : Pubkey) : Prop :=
  (a = SOL_MINT ∧ b ≠ SOL_MINT) ∨ (a ≠ SOL_MINT ∧ b = SOL_MINT)

/-- C2 (amended): an admitted event produces an alert only when at least one
mint is wrapped SOL and the selected other mint's report is safe; when the
pair check, the fetch, the analysis or the safety decision fails, nothing at
all is written — neither to `alerts_enriched` nor to `errors`; and when all
conditions hold the alert is written (with an `errors` record only on
broadcast failure). -/
theorem pipeline_gate_spec (fetch : Pubkey → Except String Account)
    (policy : Policy) (bOk : Bool) (a b : Pubkey) :
    ("alerts_enriched" ∈ handle_pool_event_streams fetch policy bOk a b →
      a = SOL_MINT ∨ b = SOL_MINT) ∧
    (sol_pair a b = none →
      handle_pool_event_streams fetch policy bOk a b = []) ∧
    (∀ ns flag, sol_pair a b = some (ns, flag) →
      (∀ e, fetch ns = Except.error e →
        handle_pool_event_streams fetch policy bOk a b = []) ∧
      (∀ acc, fetch ns = Except.ok acc →
        (∀ e, analyze_mint acc ns true policy = Except.error e →
          handle_pool_event_streams fetch policy bOk a b = []) ∧
        (∀ rep, analyze_mint acc ns true policy = Except.ok rep →
          (rep.decision_safe = false →
            handle_pool_event_streams fetch policy bOk a b = []) ∧
          (rep.decision_safe = true →
            handle_pool_event_streams fetch policy bOk a b =
              "alerts_enriched" ::
                (if bOk then [] else ["errors"]))))) := by
  refine ⟨?_, ?_, ?_⟩
  · intro hmem
    by_cases ha : a = SOL_MINT
    · exact Or.inl ha
    · by_cases hb : b = SOL_MINT
      · exact Or.inr hb
      · exfalso
        rw [handle_pool_event_streams, sol_pair, if_neg ha, if_neg hb] at hmem
        simp at hmem
  · intro hnone
    rw [handle_pool_event_streams, hnone]
  · intro ns flag hsome
    refine ⟨?_, ?_⟩
    · intro e he
      simp [handle_pool_event_streams, hsome, he]
    · intro acc hacc
      refine ⟨?_, ?_⟩
      · intro e he
        simp [handle_pool_event_streams, hsome, hacc, he]
      · intro rep hrep
        refine ⟨?_, ?_⟩
        · intro hunsafe
          simp [handle_pool_event_streams, hsome, hacc, hrep, hunsafe]
        · intro hsafe
          simp [handle_pool_event_streams, hsome, hacc, hrep, hsafe]

/-- A fetch for which every account is owned by an unrelated program, so
`analyze_mint` yields a safe `Other` report. -/
def fetchOther : Pubkey → Except String Account :=
  fun _ => Except.ok { owner := pkProg, data := AccountData.ill }

/-- C2 as frozen is false: with both mints equal to wrapped SOL, `sol_pair`
still matches (first branch), and when the selected mint analyzes as safe an
alert is emitted even though "exactly one mint is SOL" fails. -/
theorem pipeline_exactly_one_counterexample :
    handle_pool_event_streams fetchOther Policy.default true SOL_MINT SOL_MINT
      = ["alerts_enriched"] ∧
    ¬ exactlyOneSol SOL_MINT SOL_MINT := by
  constructor
  · rfl
  · intro h
    rcases h with ⟨_, h⟩ | ⟨h, _⟩ <;> exact h rfl

/-- The report `analyze_mint` yields through `fetchOther`. -/
def repOther : TokenSafetyReport :=
  { mint := pkAcct, program := TokenProgramKind.Other pkProg, decimals := 0,
    supply := 0, mint_authority_none := true, freeze_authority_none := true,
    flags := TokenExtensionFlags.default, decision_safe := true,
    reasons := [], warnings := [] }

theorem pipeline_gate_spec_witness :
    handle_pool_event_streams fetchOther Policy.default true SOL_MINT pkAcct
      = ["alerts_enriched"] := by
  have h := ((((pipeline_gate_spec fetchOther Policy.default true SOL_MINT
      pkAcct).2.2 pkAcct false rfl).2
      { owner := pkProg, data := AccountData.ill } rfl).2 repOther rfl).2 rfl
  simpa using h

/-! ### Watcher live updates (`service.rs::subscribe_program`) -/

/-- Association-list insert with overwrite (`DashMap::insert`). -/
def assocPut {α β : Type} [DecidableEq α] :
    List (α × β) → α → β → List (α × β)
  | [], k, v => [(k, v)]
  | (k2, v2) :: rest, k, v =>
      if k2 = k then (k, v) :: rest else (k2, v2) :: assocPut rest k v

/-- The inventory: program → (pool account → PoolInfo), from
`inventory.rs` (keys are the string forms of the pubkeys, which is an
injective image). -/
abbrev Inventory := List (Pubkey × List (Pubkey × PoolInfo))

/-- `Inventory::upsert`. -/
def Inventory.upsert (inv : Inventory) (info : PoolInfo) : Inventory :=
  let cur := ((inv.find? (fun e => e.1 = info.id.program)).map
    Prod.snd).getD []
  assocPut inv info.id.program (assocPut cur info.id.account info)

/-- `Inventory::count_program`. -/
def Inventory.count_program (inv : Inventory) (p : Pubkey) : Nat :=
  ((inv.find? (fun e => e.1 = p)).map (fun e => e.2.length)).getD 0

/-- Lookup one pool. -/
def Inventory.lookup (inv : Inventory) (p a : Pubkey) : Option PoolInfo :=
  match inv.find? (fun e => e.1 = p) with
  | some e => (e.2.find? (fun q => q.1 = a)).map Prod.snd
  | none => none

/-- Bus events, from `pool_watcher/types.rs::PoolEvent`. -/
inductive PoolEvent
  | SnapshotStarted (program : Pubkey)
  | SnapshotFinished (program : Pubkey) (count : Nat)
  | AccountNew (info : PoolInfo) (data_len : Nat) (slot : Nat)
  | AccountChanged (info : PoolInfo) (data_len : Nat) (slot : Nat)
  | AccountDeleted (id : PoolId) (slot : Nat)
  | ProgramLog (program : Pubkey) (signature : List Char) (slot : Nat)
  | ResyncTick (program : Pubkey)
  deriving DecidableEq, Repr

/-- `decoders/mod.rs::decode_pool`: dispatch on the DEX kind, then stamp the
requested kind and the token-program-kind flags (the introspection provider
is total here, modelling `unwrap_or(false)`). -/
def decode_pool (cfg : ConfigFees) (kind : DexKind)
    (program account : Pubkey) (data : List Byte)
    (is_token2022 : Pubkey → Bool) : ConfigFees × Option PoolInfo :=
  let r := match kind with
    | DexKind.OrcaWhirlpools => (cfg, orca_try_decode program account data)
    | DexKind.RaydiumClmm => raydium_try_decode cfg program account data
    | DexKind.RaydiumCpmm => raydium_try_decode cfg program account data
  match r.2 with
  | none => (r.1, none)
  | some info =>
    (r.1, some { info with
        dex := kind
        is_token2022_base := (info.base_mint.map is_token2022).getD false
        is_token2022_quote := (info.quote_mint.map is_token2022).getD false })

/-- Observable effects of the per-update body of `subscribe_program`. -/
inductive WatcherAction
  | upsertA (info : PoolInfo)
  | publishA (ev : PoolEvent)
  deriving DecidableEq, Repr

/-- One live program-accounts update of `subscribe_program`: parse the key,
base64-decode the data, decode, classify new-vs-changed by the pre-upsert
inventory count, upsert, then publish; returns the new inventory, the new
config table and the ordered action list. -/
def processUpdate (kind : DexKind) (program : Pubkey)
    (is_token2022 : Pubkey → Bool) (inv : Inventory) (cfg : ConfigFees)
    (acc_key : Option Pubkey) (data_bytes : Option (List Byte)) :
    Inventory × ConfigFees × List WatcherAction :=
  match acc_key, data_bytes with
  | some key, some bytes =>
    let r := decode_pool cfg kind program key bytes is_token2022
    match r.2 with
    | some info =>
      let existed_before := Inventory.count_program inv program > 0
      (Inventory.upsert inv info, r.1,
        [WatcherAction.upsertA info,
         WatcherAction.publishA (if existed_before
           then PoolEvent.AccountChanged info bytes.length 0
           else PoolEvent.AccountNew info bytes.length 0)])
    | none => (inv, r.1, [])
  | _, _ => (inv, cfg, [])

theorem assocPut_find {α β : Type} [DecidableEq α] (l : List (α × β))
    (k : α) (v : β) :
    (assocPut l k v).find? (fun q => q.1 = k) = some (k, v) := by
  induction l with
  | nil => simp [assocPut]
  | cons x rest ih =>
    cases x with
    | mk k2 v2 =>
      rw [assocPut]
      by_cases hk : k2 = k
      · rw [if_pos hk]
        simp
      · rw [if_neg hk, List.find?_cons_of_neg _ (by simpa using hk)]
        exact ih

theorem Inventory.lookup_upsert (inv : Inventory) (info : PoolInfo) :
    Inventory.lookup (Inventory.upsert inv info) info.id.program
      info.id.account = some info := by
  rw [Inventory.upsert, Inventory.lookup, assocPut_find]
  simp [assocPut_find]

/-- C10: for a live update whose key parses and whose data decodes, the
handler publishes `AccountChanged` exactly when the pre-upsert inventory has
`count_program > 0`, and `AccountNew` otherwise; the upsert action precedes
the publish, the published event carries the decoded info and data length,
and after the step the inventory holds that info; an update that fails to
parse or decode leaves the inventory unchanged and publishes nothing. -/
theorem subscribe_program_update_spec (kind : DexKind) (program : Pubkey)
    (tok : Pubkey → Bool) (inv : Inventory) (cfg : ConfigFees)
    (key : Pubkey) (data : List Byte) :
    (∀ info, (decode_pool cfg kind program key data tok).2 = some info →
      processUpdate kind program tok inv cfg (some key) (some data) =
        (Inventory.upsert inv info,
         (decode_pool cfg kind program key data tok).1,
         [WatcherAction.upsertA info,
          WatcherAction.publishA
            (if Inventory.count_program inv program > 0
             then PoolEvent.AccountChanged info data.length 0
             else PoolEvent.AccountNew info data.length 0)]) ∧
      Inventory.lookup
        (processUpdate kind program tok inv cfg (some key) (some data)).1
        info.id.program info.id.account = some info) ∧
    ((decode_pool cfg kind program key data tok).2 = none →
      processUpdate kind program tok inv cfg (some key) (some data) =
        (inv, (decode_pool cfg kind program key data tok).1, [])) ∧
    (processUpdate kind program tok inv cfg none (some data) =
      (inv, cfg, []) ∧
     processUpdate kind program tok inv cfg (some key) none =
      (inv, cfg, [])) := by
  refine ⟨?_, ?_, rfl, rfl⟩
  · intro info hdec
    constructor
    · simp [processUpdate, hdec]
    · simp [processUpdate, hdec, Inventory.lookup_upsert]
  · intro hdec
    simp [processUpdate, hdec]

/-- The PoolInfo decoded from `orcaBuf` by `decode_pool` (zero-filled
mints, fee 5, tick spacing 3). -/
def orcaInfoW : PoolInfo :=
  { dex := DexKind.OrcaWhirlpools
    id := { program := pkProg, account := pkAcct }
    base_mint := some (List.replicate 32 0)
    quote_mint := some (List.replicate 32 0)
    fee_bps := some 5
    tick_spacing := some 3
    lp_mint := none
    is_token2022_base := false
    is_token2022_quote := false }

theorem subscribe_program_update_spec_witness :
    processUpdate DexKind.OrcaWhirlpools pkProg (fun _ => false) [] []
        (some pkAcct) (some orcaBuf) =
      (Inventory.upsert [] orcaInfoW, [],
       [WatcherAction.upsertA orcaInfoW,
        WatcherAction.publishA
          (PoolEvent.AccountNew orcaInfoW orcaBuf.length 0)]) := by
  have h := ((subscribe_program_update_spec DexKind.OrcaWhirlpools pkProg
      (fun _ => false) [] [] pkAcct orcaBuf).1 orcaInfoW (by decide)).1
  simpa using h
